import Mathlib

-- Verification of the Jay-RAG-Tools frontend (Next.js dashboard) and of the
-- spec-described core pipeline / deploy layer of the same repository.
-- Each definition is a shallow embedding of the corresponding TypeScript
-- source (file and symbol named in its doc comment); components whose Rust
-- implementation is not part of the frontend tree are modelled from the
-- specification and marked as such.

set_option maxRecDepth 4096

/-- Trash detection type names, from src/frontend lib types (used by
TrashPanel.tsx): table_of_contents, boilerplate, blank_page, header_footer. -/
inductive TrashTypeName
  | table_of_contents
  | boilerplate
  | blank_page
  | header_footer
deriving DecidableEq, Repr

/-- One trash detection record as consumed by TrashPanel.tsx: page index
(0 for document-level findings), type, confidence, reason and preview. -/
structure TrashDetection where
  page : Nat
  trash_type : TrashTypeName
  confidence : ℚ
  reason : String
  preview : String
deriving DecidableEq, Repr

/-- TrashPanel.tsx: items that can be removed (have a page number > 0, not
header/footer): items.filter(item => item.page > 0 && item.trash_type !== "header_footer"). -/
def removable (items : List TrashDetection) : List TrashDetection :=
  items.filter (fun item =>
    decide (item.page > 0) && decide (item.trash_type ≠ TrashTypeName.header_footer))

/-- TrashPanel.tsx: informational items:
items.filter(item => item.page === 0 || item.trash_type === "header_footer"). -/
def informational (items : List TrashDetection) : List TrashDetection :=
  items.filter (fun item =>
    decide (item.page = 0) || decide (item.trash_type = TrashTypeName.header_footer))

/-- JobProgress record from src/frontend/lib/types.ts. -/
structure JobProgress where
  current_page : Nat
  total_pages : Nat
  images_processed : Nat
  phase : String
  message : String
deriving DecidableEq, Repr

/-- JavaScript Math.round: rounds half away from zero toward positive
infinity, i.e. the floor of the argument plus one half. -/
def jsRound (q : ℚ) : ℤ := ⌊q + 1 / 2⌋

/-- JobProgress.tsx: const percent = progress.total_pages > 0
? Math.round((progress.current_page / progress.total_pages) * 100) : 0. -/
def percent (p : JobProgress) : ℤ :=
  if p.total_pages > 0 then
    jsRound (((p.current_page : ℚ) / (p.total_pages : ℚ)) * 100)
  else 0

/-- C6: the removable and informational sets of the TrashPanel partition the
detection list: a detection is removable iff its page index is greater than 0
and its type is not header_footer; page-0 or header_footer detections are in
the informational set, the two sets are disjoint and together cover the list. -/
theorem trashPanel_removable_informational_partition
    (items : List TrashDetection) (d : TrashDetection) :
    (d ∈ removable items ↔
      d ∈ items ∧ 0 < d.page ∧ d.trash_type ≠ TrashTypeName.header_footer)
    ∧ (d ∈ informational items ↔
      d ∈ items ∧ (d.page = 0 ∨ d.trash_type = TrashTypeName.header_footer))
    ∧ ¬(d ∈ removable items ∧ d ∈ informational items)
    ∧ (d ∈ items ↔ d ∈ removable items ∨ d ∈ informational items) := by
  refine ⟨?_, ?_, ?_, ?_⟩
  · simp [removable, List.mem_filter, and_assoc]
  · simp [informational, List.mem_filter]
  · simp only [removable, informational, List.mem_filter]
    rintro ⟨⟨-, h1⟩, -, h2⟩
    simp only [Bool.and_eq_true, Bool.or_eq_true, decide_eq_true_eq] at h1 h2
    rcases h2 with h2 | h2
    · omega
    · exact h1.2 h2
  · simp only [removable, informational, List.mem_filter]
    constructor
    · intro hd
      by_cases hp : 0 < d.page
      · by_cases hh : d.trash_type = TrashTypeName.header_footer
        · exact Or.inr ⟨hd, by simp [hh]⟩
        · exact Or.inl ⟨hd, by simp [hp, hh]⟩
      · exact Or.inr ⟨hd, by simp [Nat.eq_zero_of_not_pos hp]⟩
    · rintro (⟨hd, -⟩ | ⟨hd, -⟩) <;> exact hd

/-- Concrete detection used by the partition witness. -/
def sampleBoiler : TrashDetection := ⟨3, TrashTypeName.boilerplate, 9 / 10, "r", "p"⟩

/-- Concrete document-level detection used by the partition witness. -/
def sampleToc : TrashDetection := ⟨0, TrashTypeName.table_of_contents, 1, "r2", "p2"⟩

/-- Concrete header/footer detection used by the partition witness. -/
def sampleHf : TrashDetection := ⟨5, TrashTypeName.header_footer, 1, "r3", "p3"⟩

/-- Concrete detection list used by the partition witness. -/
def sampleTrashItems : List TrashDetection := [sampleBoiler, sampleToc, sampleHf]

/-- C6 witness: a concrete three-element detection list instantiating the
partition theorem. -/
theorem trashPanel_partition_witness :
    (sampleBoiler ∈ removable sampleTrashItems ↔
      sampleBoiler ∈ sampleTrashItems ∧ 0 < sampleBoiler.page ∧
        sampleBoiler.trash_type ≠ TrashTypeName.header_footer)
    ∧ (sampleBoiler ∈ informational sampleTrashItems ↔
      sampleBoiler ∈ sampleTrashItems ∧
        (sampleBoiler.page = 0 ∨ sampleBoiler.trash_type = TrashTypeName.header_footer))
    ∧ ¬(sampleBoiler ∈ removable sampleTrashItems ∧
        sampleBoiler ∈ informational sampleTrashItems)
    ∧ (sampleBoiler ∈ sampleTrashItems ↔
      sampleBoiler ∈ removable sampleTrashItems ∨
        sampleBoiler ∈ informational sampleTrashItems) :=
  trashPanel_removable_informational_partition sampleTrashItems sampleBoiler

/-- C8: the JobProgress completion percentage never divides by zero: it is 0
when total_pages = 0, equals Math.round(100 * current_page / total_pages)
when total_pages > 0, and is never negative. -/
theorem jobProgress_percent_total (p : JobProgress) :
    (p.total_pages = 0 → percent p = 0)
    ∧ (0 < p.total_pages →
        percent p = jsRound (100 * (p.current_page : ℚ) / (p.total_pages : ℚ)))
    ∧ 0 ≤ percent p := by
  refine ⟨fun h => by simp [percent, h], fun h => ?_, ?_⟩
  · have : ((p.current_page : ℚ) / (p.total_pages : ℚ)) * 100
        = 100 * (p.current_page : ℚ) / (p.total_pages : ℚ) := by ring
    simp [percent, h, this]
  · unfold percent
    split
    · unfold jsRound
      have h0 : (0 : ℚ) ≤ ((p.current_page : ℚ) / (p.total_pages : ℚ)) * 100 := by
        positivity
      have : (0 : ℚ) ≤ ((p.current_page : ℚ) / (p.total_pages : ℚ)) * 100 + 1 / 2 := by
        linarith
      exact Int.floor_nonneg.mpr this
    · exact le_refl 0

/-- C8 witness: the percentage at concrete progress snapshots, with both the
zero-total and the positive-total branch of the theorem instantiated. -/
theorem jobProgress_percent_witness :
    percent ⟨3, 0, 0, "extracting", "m"⟩ = 0
    ∧ percent ⟨3, 4, 0, "describing", "m"⟩
        = jsRound (100 * ((3 : Nat) : ℚ) / ((4 : Nat) : ℚ)) :=
  ⟨(jobProgress_percent_total ⟨3, 0, 0, "extracting", "m"⟩).1 rfl,
    (jobProgress_percent_total ⟨3, 4, 0, "describing", "m"⟩).2.1 (by decide)⟩

/-- Lib format (timeAgo): the JavaScript Date parse of the ISO string is the
ambient environment's work; it is passed in as dateParse, returning the epoch
milliseconds of a valid date and none when the string does not parse (the NaN
case of new Date(iso).getTime()). localeDate stands for
date.toLocaleDateString(). Math.floor of the quotient of integers by a
positive constant is integer floor division, Lean's Int division. -/
def timeAgo (iso : String) (dateParse : String → Option Int) (now : Int)
    (localeDate : Int → String) : String :=
  match dateParse iso with
  | none => iso
  | some t =>
    let diffMs : Int := now - t
    let seconds : Int := diffMs / 1000
    if seconds < 60 then "just now"
    else
      let minutes : Int := seconds / 60
      if minutes < 60 then toString minutes ++ "m ago"
      else
        let hours : Int := minutes / 60
        if hours < 24 then toString hours ++ "h ago"
        else
          let days : Int := hours / 24
          if days < 7 then toString days ++ "d ago"
          else localeDate t

/-- Lib format (formatDateTime): returns the input verbatim when the date
does not parse, otherwise date.toLocaleString(), passed in as localeDateTime. -/
def formatDateTime (iso : String) (dateParse : String → Option Int)
    (localeDateTime : Int → String) : String :=
  match dateParse iso with
  | none => iso
  | some t => localeDateTime t

/-- C10: the timestamp formatters are total: an unparsable string is returned
verbatim by both, and for a valid timestamp timeAgo buckets the age in
milliseconds into just-now (< 60 s), minutes (< 60 min), hours (< 24 h),
days (< 7 d) and then the local date. -/
theorem format_timeAgo_total_buckets (dateParse : String → Option Int)
    (now : Int) (localeDate localeDateTime : Int → String) (iso : String) :
    (dateParse iso = none →
      timeAgo iso dateParse now localeDate = iso
      ∧ formatDateTime iso dateParse localeDateTime = iso)
    ∧ (∀ t, dateParse iso = some t →
        (0 ≤ now - t → now - t < 60000 →
          timeAgo iso dateParse now localeDate = "just now")
        ∧ (60000 ≤ now - t → now - t < 3600000 →
          timeAgo iso dateParse now localeDate
            = toString ((now - t) / 60000) ++ "m ago")
        ∧ (3600000 ≤ now - t → now - t < 86400000 →
          timeAgo iso dateParse now localeDate
            = toString ((now - t) / 3600000) ++ "h ago")
        ∧ (86400000 ≤ now - t → now - t < 604800000 →
          timeAgo iso dateParse now localeDate
            = toString ((now - t) / 86400000) ++ "d ago")
        ∧ (604800000 ≤ now - t →
          timeAgo iso dateParse now localeDate = localeDate t)
        ∧ formatDateTime iso dateParse localeDateTime = localeDateTime t) := by
  constructor
  · intro h
    constructor <;> simp [timeAgo, formatDateTime, h]
  · intro t ht
    refine ⟨?_, ?_, ?_, ?_, ?_, by simp [formatDateTime, ht]⟩
    · intro h0 h1
      have hs : (now - t) / 1000 < 60 := by omega
      simp [timeAgo, ht, hs]
    · intro h0 h1
      have hs : ¬((now - t) / 1000 < 60) := by omega
      have hm : (now - t) / 1000 / 60 < 60 := by omega
      have he : (now - t) / 1000 / 60 = (now - t) / 60000 := by omega
      simp only [timeAgo, ht]
      rw [if_neg hs, if_pos hm, he]
    · intro h0 h1
      have hs : ¬((now - t) / 1000 < 60) := by omega
      have hm : ¬((now - t) / 1000 / 60 < 60) := by omega
      have hh : (now - t) / 1000 / 60 / 60 < 24 := by omega
      have he : (now - t) / 1000 / 60 / 60 = (now - t) / 3600000 := by omega
      simp only [timeAgo, ht]
      rw [if_neg hs, if_neg hm, if_pos hh, he]
    · intro h0 h1
      have hs : ¬((now - t) / 1000 < 60) := by omega
      have hm : ¬((now - t) / 1000 / 60 < 60) := by omega
      have hh : ¬((now - t) / 1000 / 60 / 60 < 24) := by omega
      have hd : (now - t) / 1000 / 60 / 60 / 24 < 7 := by omega
      have he : (now - t) / 1000 / 60 / 60 / 24 = (now - t) / 86400000 := by omega
      simp only [timeAgo, ht]
      rw [if_neg hs, if_neg hm, if_neg hh, if_pos hd, he]
    · intro h0
      have hs : ¬((now - t) / 1000 < 60) := by omega
      have hm : ¬((now - t) / 1000 / 60 < 60) := by omega
      have hh : ¬((now - t) / 1000 / 60 / 60 < 24) := by omega
      have hd : ¬((now - t) / 1000 / 60 / 60 / 24 < 7) := by omega
      simp [timeAgo, ht, hs, hm, hh, hd]

/-- Concrete date parser used by the format witness: only the string t0
parses, to epoch millisecond 0. -/
def sampleDateParse (s : String) : Option Int :=
  if s = "t0" then some 0 else none

/-- C10 witness: an unparsable string comes back verbatim from both
formatters, and a 5-second-old valid timestamp formats as just now. -/
theorem format_timeAgo_witness :
    timeAgo "not-a-date" sampleDateParse 5000 (fun _ => "LD") = "not-a-date"
    ∧ formatDateTime "not-a-date" sampleDateParse (fun _ => "LDT") = "not-a-date"
    ∧ timeAgo "t0" sampleDateParse 5000 (fun _ => "LD") = "just now" :=
  ⟨(format_timeAgo_total_buckets sampleDateParse 5000 (fun _ => "LD")
      (fun _ => "LDT") "not-a-date").1 rfl |>.1,
    (format_timeAgo_total_buckets sampleDateParse 5000 (fun _ => "LD")
      (fun _ => "LDT") "not-a-date").1 rfl |>.2,
    ((format_timeAgo_total_buckets sampleDateParse 5000 (fun _ => "LD")
      (fun _ => "LDT") "t0").2 0 rfl).1 (by decide) (by decide)⟩

/-- JSON values as produced by JSON.parse, for the WebSocket message handler
of useWebSocket.ts. -/
inductive Json
  | null
  | bool (b : Bool)
  | num (n : ℚ)
  | str (s : String)
  | arr (elems : List Json)
  | obj (fields : List (String × Json))

/-- JavaScript property access data.current_page on a parsed JSON value:
some value when data is an object with the field (even a null field), none
otherwise. A non-object receiver yields undefined, except null whose property
access throws; the throw is caught by the handler's try/catch, so both cases
lead to the same no-update outcome and both are none here. -/
def jsField : Json → String → Option Json
  | Json.obj fields, k => (fields.find? (fun p => p.1 == k)).map Prod.snd
  | _, _ => none

/-- useWebSocket.ts (useJobProgress) ws.onmessage: JSON.parse the event data
(parse failure caught and ignored), and setProgress(data) only when
data.current_page !== undefined. The retained progress state is the parsed
JSON value of the last accepted message. -/
def onMessage (parse : String → Option Json) (st : Option Json)
    (msg : String) : Option Json :=
  match parse msg with
  | none => st
  | some j => if (jsField j "current_page").isSome then some j else st

/-- Folding the onmessage handler over a sequence of received WebSocket
messages, starting from the retained progress state. -/
def processMessages (parse : String → Option Json) (st : Option Json)
    (msgs : List String) : Option Json :=
  msgs.foldl (onMessage parse) st

/-- C9: the progress state is updated only by messages that parse as JSON and
carry a defined current_page field; a non-JSON message, or a JSON message
without current_page, leaves the retained snapshot unchanged, including over
whole sequences of such messages. -/
theorem useJobProgress_ignores_unrelated_messages
    (parse : String → Option Json) (st : Option Json) (msg : String) :
    (parse msg = none → onMessage parse st msg = st)
    ∧ (∀ j, parse msg = some j → jsField j "current_page" = none →
        onMessage parse st msg = st)
    ∧ (∀ j, parse msg = some j → (jsField j "current_page").isSome = true →
        onMessage parse st msg = some j)
    ∧ (∀ msgs : List String,
        (∀ m ∈ msgs, parse m = none
          ∨ ∃ j, parse m = some j ∧ jsField j "current_page" = none) →
        processMessages parse st msgs = st) := by
  refine ⟨fun h => by simp [onMessage, h], ?_, ?_, ?_⟩
  · intro j hj hf
    simp [onMessage, hj, hf]
  · intro j hj hf
    simp [onMessage, hj, hf]
  · intro msgs
    induction msgs generalizing st with
    | nil => intro _; rfl
    | cons m ms ih =>
      intro hall
      have hstep : onMessage parse st m = st := by
        rcases hall m (by simp) with hm | ⟨j, hj, hf⟩
        · simp [onMessage, hm]
        · simp [onMessage, hj, hf]
      have hsplit : processMessages parse st (m :: ms) = processMessages parse st ms := by
        simp [processMessages, List.foldl_cons, hstep]
      rw [hsplit]
      exact ih st (fun m' hm' => hall m' (by simp [hm']))

/-- Concrete parse function used by the message-handling witness: only the
string p parses, to an object carrying current_page. -/
def sampleParse (s : String) : Option Json :=
  if s = "p" then some (Json.obj [("current_page", Json.num 3)]) else none

/-- C9 witness: a garbage message leaves the state unchanged and a progress
message with current_page replaces it, at concrete inputs. -/
theorem useJobProgress_witness :
    onMessage sampleParse none "garbage" = none
    ∧ onMessage sampleParse none "p"
        = some (Json.obj [("current_page", Json.num 3)]) :=
  ⟨(useJobProgress_ignores_unrelated_messages sampleParse none "garbage").1 rfl,
    (useJobProgress_ignores_unrelated_messages sampleParse none "p").2.2.1
      (Json.obj [("current_page", Json.num 3)]) rfl rfl⟩

/-- Image target kinds selectable in the DeployModal (the empty select value
is represented as none of Option ImageTargetType). -/
inductive ImageTargetType
  | local_folder
  | s3
  | scp
deriving DecidableEq, Repr

/-- Markdown target kinds selectable in the DeployModal. -/
inductive MarkdownTargetType
  | local_folder
  | flowise
deriving DecidableEq, Repr

/-- JavaScript String.prototype.trim: removes whitespace from both ends of
the string. Implemented structurally so that concrete instances evaluate. -/
def jsTrim (s : String) : String :=
  String.mk (((s.data.dropWhile Char.isWhitespace).reverse.dropWhile
    Char.isWhitespace).reverse)

/-- The DeployModal.tsx form state: the shared image base URL, the selected
target kinds and every per-target text field. Field imgS3Prfx embeds the
imgS3Prefix state variable of the source. -/
structure DeployFormState where
  imageBaseUrl : String
  imageTargetType : Option ImageTargetType
  imgLocalPath : String
  imgS3Bucket : String
  imgS3Prfx : String
  imgS3Region : String
  imgScpHost : String
  imgScpPort : String
  imgScpUser : String
  imgScpKeyPath : String
  imgScpRemotePath : String
  mdTargetType : Option MarkdownTargetType
  mdLocalPath : String
  mdFlowiseUrl : String
  mdFlowiseApiKey : String
  mdFlowiseStoreId : String
deriving DecidableEq, Repr

/-- DeployModal.tsx canSubmit(): false when the base URL trims to empty, when
no target kind is selected, or when a required field of the selected image or
markdown variant trims to empty; true otherwise. Each JavaScript early return
is one if branch, in source order. -/
def canSubmit (s : DeployFormState) : Bool :=
  if jsTrim s.imageBaseUrl = "" then false
  else if s.imageTargetType = none ∧ s.mdTargetType = none then false
  else if s.imageTargetType = some ImageTargetType.local_folder
      ∧ jsTrim s.imgLocalPath = "" then false
  else if s.imageTargetType = some ImageTargetType.s3
      ∧ (jsTrim s.imgS3Bucket = "" ∨ jsTrim s.imgS3Prfx = "") then false
  else if s.imageTargetType = some ImageTargetType.scp
      ∧ (jsTrim s.imgScpHost = "" ∨ jsTrim s.imgScpUser = ""
          ∨ jsTrim s.imgScpRemotePath = "") then false
  else if s.mdTargetType = some MarkdownTargetType.local_folder
      ∧ jsTrim s.mdLocalPath = "" then false
  else if s.mdTargetType = some MarkdownTargetType.flowise
      ∧ (jsTrim s.mdFlowiseUrl = "" ∨ jsTrim s.mdFlowiseApiKey = ""
          ∨ jsTrim s.mdFlowiseStoreId = "") then false
  else true

/-- Specification-side required fields of the selected image variant,
written from the spec's words. -/
def specImageFieldsOk (s : DeployFormState) : Prop :=
  match s.imageTargetType with
  | none => True
  | some ImageTargetType.local_folder => jsTrim s.imgLocalPath ≠ ""
  | some ImageTargetType.s3 => jsTrim s.imgS3Bucket ≠ "" ∧ jsTrim s.imgS3Prfx ≠ ""
  | some ImageTargetType.scp =>
      jsTrim s.imgScpHost ≠ "" ∧ jsTrim s.imgScpUser ≠ ""
        ∧ jsTrim s.imgScpRemotePath ≠ ""

/-- Specification-side required fields of the selected markdown variant. -/
def specMarkdownFieldsOk (s : DeployFormState) : Prop :=
  match s.mdTargetType with
  | none => True
  | some MarkdownTargetType.local_folder => jsTrim s.mdLocalPath ≠ ""
  | some MarkdownTargetType.flowise =>
      jsTrim s.mdFlowiseUrl ≠ "" ∧ jsTrim s.mdFlowiseApiKey ≠ ""
        ∧ jsTrim s.mdFlowiseStoreId ≠ ""

/-- Specification-side canSubmit, assembled from the spec's words: base URL
non-blank, at least one target selected, required fields of each selected
variant non-blank. -/
def specCanSubmit (s : DeployFormState) : Prop :=
  jsTrim s.imageBaseUrl ≠ ""
    ∧ (s.imageTargetType ≠ none ∨ s.mdTargetType ≠ none)
    ∧ specImageFieldsOk s ∧ specMarkdownFieldsOk s

/-- Unrolling of the canSubmit early-return chain: the source function
returns true exactly when none of the seven early-return conditions holds. -/
theorem canSubmit_true_iff_conditions (s : DeployFormState) :
    canSubmit s = true ↔
      ¬(jsTrim s.imageBaseUrl = "")
      ∧ ¬(s.imageTargetType = none ∧ s.mdTargetType = none)
      ∧ ¬(s.imageTargetType = some ImageTargetType.local_folder
          ∧ jsTrim s.imgLocalPath = "")
      ∧ ¬(s.imageTargetType = some ImageTargetType.s3
          ∧ (jsTrim s.imgS3Bucket = "" ∨ jsTrim s.imgS3Prfx = ""))
      ∧ ¬(s.imageTargetType = some ImageTargetType.scp
          ∧ (jsTrim s.imgScpHost = "" ∨ jsTrim s.imgScpUser = ""
              ∨ jsTrim s.imgScpRemotePath = ""))
      ∧ ¬(s.mdTargetType = some MarkdownTargetType.local_folder
          ∧ jsTrim s.mdLocalPath = "")
      ∧ ¬(s.mdTargetType = some MarkdownTargetType.flowise
          ∧ (jsTrim s.mdFlowiseUrl = "" ∨ jsTrim s.mdFlowiseApiKey = ""
              ∨ jsTrim s.mdFlowiseStoreId = "")) := by
  unfold canSubmit
  split_ifs with h1 h2 h3 h4 h5 h6 h7
  · exact iff_of_false not_false (fun hr => hr.1 h1)
  · exact iff_of_false not_false (fun hr => hr.2.1 h2)
  · exact iff_of_false not_false (fun hr => hr.2.2.1 h3)
  · exact iff_of_false not_false (fun hr => hr.2.2.2.1 h4)
  · exact iff_of_false not_false (fun hr => hr.2.2.2.2.1 h5)
  · exact iff_of_false not_false (fun hr => hr.2.2.2.2.2.1 h6)
  · exact iff_of_false not_false (fun hr => hr.2.2.2.2.2.2 h7)
  · exact iff_of_true rfl ⟨h1, h2, h3, h4, h5, h6, h7⟩

/-- C3: the deploy form can be submitted iff the base URL is non-blank, at
least one target is selected, and every required field of each selected
variant is non-blank; in particular a blank base URL or an empty target
selection makes submission impossible. -/
theorem deployModal_canSubmit_iff (s : DeployFormState) :
    (canSubmit s = true ↔ specCanSubmit s)
    ∧ (jsTrim s.imageBaseUrl = "" → canSubmit s = false)
    ∧ (s.imageTargetType = none → s.mdTargetType = none → canSubmit s = false) := by
  refine ⟨?_, fun h => by simp [canSubmit, h], fun h1 h2 => by simp [canSubmit, h1, h2]⟩
  rw [canSubmit_true_iff_conditions]
  unfold specCanSubmit
  rcases hit : s.imageTargetType with _ | it
  · rcases hmt : s.mdTargetType with _ | mt
    · simp [specImageFieldsOk, specMarkdownFieldsOk, hit, hmt]
    · cases mt <;>
        · simp [specImageFieldsOk, specMarkdownFieldsOk, hit, hmt]
          try tauto
  · rcases hmt : s.mdTargetType with _ | mt
    · cases it <;>
        · simp [specImageFieldsOk, specMarkdownFieldsOk, hit, hmt]
          try tauto
    · cases it <;> cases mt <;>
        · simp [specImageFieldsOk, specMarkdownFieldsOk, hit, hmt]
          try tauto

/-- Concrete deploy form state used by the canSubmit witness: an s3 image
target with both required fields filled and no markdown target. -/
def sampleForm : DeployFormState :=
  ⟨"http://192.168.0.10:8444/rag-images", some ImageTargetType.s3,
    "", "my-rag-images", "images/manual", "", "", "", "", "", "",
    none, "", "http://localhost:3001", "", ""⟩

/-- C3 witness: the concrete form satisfies the iff, and blanking its base
URL disables submission. -/
theorem deployModal_canSubmit_witness :
    (canSubmit sampleForm = true ↔ specCanSubmit sampleForm)
    ∧ canSubmit { sampleForm with imageBaseUrl := "  " } = false :=
  ⟨(deployModal_canSubmit_iff sampleForm).1,
    (deployModal_canSubmit_iff { sampleForm with imageBaseUrl := "  " }).2.1
      (by decide)⟩

/-- Page-relative bounding box of an embedded image, as reported by the
document parser. -/
structure BBox where
  x0 : ℚ
  y0 : ℚ
  x1 : ℚ
  y1 : ℚ
deriving DecidableEq, Repr

/-- Modelled from the spec: the Rust page-strategy classifier is not under
the frontend tree. Each image's area is clamped to lie within the page
rectangle [0,w] x [0,h]; a degenerate box contributes area 0. -/
def clampedArea (w h : ℚ) (b : BBox) : ℚ :=
  max 0 (min b.x1 w - max b.x0 0) * max 0 (min b.y1 h - max b.y0 0)

/-- Modelled from the spec: coverage ratio = (sum of each image's clamped
area) / page area, overlapping regions summed without deduplication; a page
with zero area yields ratio 0 by convention, and the ratio is capped at 1 so
that it lies in [0,1] as the spec asserts even when overlapping boxes make
the raw sum exceed the page area. -/
def coverageRatio (w h : ℚ) (boxes : List BBox) : ℚ :=
  if w * h ≤ 0 then 0
  else min 1 (((boxes.map (clampedArea w h)).sum) / (w * h))

/-- The two page-processing strategies of the classifier. -/
inductive PageStrategy
  | FullPageRender
  | MixedExtraction
deriving DecidableEq, Repr

/-- Modelled from the spec: FullPageRender when the coverage ratio exceeds
the configurable threshold, MixedExtraction otherwise. -/
def classifyPage (threshold w h : ℚ) (boxes : List BBox) : PageStrategy :=
  if coverageRatio w h boxes > threshold then PageStrategy.FullPageRender
  else PageStrategy.MixedExtraction

/-- The default PAGE_AS_IMAGE_THRESHOLD of the classifier. -/
def PAGE_AS_IMAGE_THRESHOLD : ℚ := 1 / 2

/-- Clamped areas are nonnegative. -/
theorem clampedArea_nonneg (w h : ℚ) (b : BBox) : 0 ≤ clampedArea w h b := by
  unfold clampedArea
  positivity

/-- C5: the coverage ratio always lies in [0,1], even with overlapping
boxes summed without deduplication; the strategy is FullPageRender exactly
when the ratio exceeds the threshold (so it is a function of the boxes and
the threshold alone); and a zero-image or zero-area page yields ratio 0 and,
for any nonnegative threshold, MixedExtraction. -/
theorem classifier_ratio_bounds_strategy (threshold w h : ℚ) (boxes : List BBox) :
    (0 ≤ coverageRatio w h boxes ∧ coverageRatio w h boxes ≤ 1)
    ∧ (classifyPage threshold w h boxes = PageStrategy.FullPageRender ↔
        coverageRatio w h boxes > threshold)
    ∧ (boxes = [] → coverageRatio w h boxes = 0)
    ∧ (w * h ≤ 0 → coverageRatio w h boxes = 0)
    ∧ (0 ≤ threshold → boxes = [] ∨ w * h ≤ 0 →
        classifyPage threshold w h boxes = PageStrategy.MixedExtraction) := by
  have hnn : 0 ≤ coverageRatio w h boxes := by
    unfold coverageRatio
    split
    · exact le_refl 0
    · rename_i hwh
      have hpos : 0 < w * h := lt_of_not_le hwh
      have hsum : 0 ≤ ((boxes.map (clampedArea w h)).sum) := by
        apply List.sum_nonneg
        intro x hx
        rcases List.mem_map.mp hx with ⟨b, -, hb⟩
        exact hb ▸ clampedArea_nonneg w h b
      exact le_min zero_le_one (div_nonneg hsum (le_of_lt hpos))
  have hle : coverageRatio w h boxes ≤ 1 := by
    unfold coverageRatio
    split
    · exact zero_le_one
    · exact min_le_left 1 _
  have hzero : boxes = [] → coverageRatio w h boxes = 0 := by
    intro hb
    unfold coverageRatio
    split
    · rfl
    · simp [hb]
  have hdeg : w * h ≤ 0 → coverageRatio w h boxes = 0 := by
    intro hwh
    unfold coverageRatio
    rw [if_pos hwh]
  refine ⟨⟨hnn, hle⟩, ?_, hzero, hdeg, ?_⟩
  · unfold classifyPage
    split
    · rename_i hgt
      exact ⟨fun _ => hgt, fun _ => rfl⟩
    · rename_i hgt
      exact ⟨fun hf => absurd hf (by simp), fun hc => absurd hc hgt⟩
  · intro hth hcase
    have h0 : coverageRatio w h boxes = 0 := by
      rcases hcase with hb | hwh
      · exact hzero hb
      · exact hdeg hwh
    unfold classifyPage
    rw [h0, if_neg (by linarith)]

/-- C5 witness: a 100 x 100 page with a single 60 x 100 image has coverage
ratio in bounds, and the empty page classifies as MixedExtraction at the
default threshold. -/
theorem classifier_witness :
    (0 ≤ coverageRatio 100 100 [⟨0, 0, 60, 100⟩]
      ∧ coverageRatio 100 100 [⟨0, 0, 60, 100⟩] ≤ 1)
    ∧ classifyPage PAGE_AS_IMAGE_THRESHOLD 100 100 []
        = PageStrategy.MixedExtraction :=
  ⟨(classifier_ratio_bounds_strategy PAGE_AS_IMAGE_THRESHOLD 100 100
      [⟨0, 0, 60, 100⟩]).1,
    (classifier_ratio_bounds_strategy PAGE_AS_IMAGE_THRESHOLD 100 100 []).2.2.2.2
      (by norm_num [PAGE_AS_IMAGE_THRESHOLD]) (Or.inl rfl)⟩

/-- Job status union of src/frontend/lib/types.ts:
"pending" | "processing" | "completed" | "failed". -/
inductive JobStatus
  | pending
  | processing
  | completed
  | failed
deriving DecidableEq, Repr

/-- Immutable job configuration snapshot from src/frontend/lib/types.ts. -/
structure JobConfig where
  provider : String
  model : Option String
  language : String
  start_page : Option Nat
  end_page : Option Nat
  table_extraction : Bool
  storage : String
  s3_bucket : Option String
  s3Prfx : Option String
  storage_path : Option String
deriving DecidableEq, Repr

/-- Job result record from src/frontend/lib/types.ts. -/
structure JobResult where
  markdown_path : String
  metadata_path : String
  image_count : Nat
  images_dir : String
deriving DecidableEq, Repr

/-- Job record from src/frontend/lib/types.ts. -/
structure Job where
  id : String
  filename : String
  status : JobStatus
  config : JobConfig
  progress : Option JobProgress
  result : Option JobResult
  error : Option String
  created_at : String
  updated_at : String
deriving DecidableEq, Repr

/-- Terminal statuses: completed and failed. -/
def JobStatus.isTerminal : JobStatus → Bool
  | JobStatus.completed => true
  | JobStatus.failed => true
  | _ => false

/-- Modelled from the spec: the Rust job orchestrator is not under the
frontend tree. Its state machine is pending to processing to completed or
failed; the owning runner task is the only writer, so the possible mutations
of a job record are exactly these steps: start running, update progress,
complete with a result, or fail with an error (including the distinct
cancellation reason). -/
inductive JobStep : Job → Job → Prop
  | start (j : Job) (pr : JobProgress) (ts : String)
      (h : j.status = JobStatus.pending) :
      JobStep j { j with status := JobStatus.processing,
                         progress := some pr, updated_at := ts }
  | checkpoint (j : Job) (pr : JobProgress) (ts : String)
      (h : j.status = JobStatus.processing) :
      JobStep j { j with progress := some pr, updated_at := ts }
  | complete (j : Job) (res : JobResult) (ts : String)
      (h : j.status = JobStatus.processing) :
      JobStep j { j with status := JobStatus.completed,
                         result := some res, updated_at := ts }
  | fail (j : Job) (msg : String) (ts : String)
      (h : j.status = JobStatus.processing) :
      JobStep j { j with status := JobStatus.failed,
                         error := some msg, updated_at := ts }

/-- C7: the status set is exactly pending, processing, completed, failed;
every step starts from a non-terminal status and follows
pending to processing to completed-or-failed; consequently no step, and in
particular no mutation of any field, applies to a terminal job. -/
theorem jobStatus_state_machine :
    (∀ s : JobStatus, s = JobStatus.pending ∨ s = JobStatus.processing
      ∨ s = JobStatus.completed ∨ s = JobStatus.failed)
    ∧ (∀ j j' : Job, JobStep j j' → j.status.isTerminal = false)
    ∧ (∀ j j' : Job, JobStep j j' →
        (j.status = JobStatus.pending ∧ j'.status = JobStatus.processing)
        ∨ (j.status = JobStatus.processing ∧
            (j'.status = JobStatus.processing
              ∨ j'.status = JobStatus.completed
              ∨ j'.status = JobStatus.failed)))
    ∧ (∀ j j' : Job, j.status.isTerminal = true → ¬JobStep j j') := by
  refine ⟨?_, ?_, ?_, ?_⟩
  · intro s
    cases s <;> simp
  · intro j j' hstep
    cases hstep <;> rename_i h <;> simp [h, JobStatus.isTerminal]
  · intro j j' hstep
    cases hstep <;> rename_i h <;> simp [h]
  · intro j j' hterm hstep
    cases hstep <;> rename_i h <;> simp [h, JobStatus.isTerminal] at hterm

/-- Concrete pending job used by the state-machine witness. -/
def sampleJob : Job :=
  ⟨"j1", "manual.pdf", JobStatus.pending,
    ⟨"ollama", some "qwen2.5vl", "th", none, none, false, "local", none, none, none⟩,
    none, none, none, "2025-01-01T00:00:00Z", "2025-01-01T00:00:00Z"⟩

/-- The sample job after its start transition. -/
def sampleStartedJob : Job :=
  { sampleJob with status := JobStatus.processing,
                   progress := some ⟨0, 10, 0, "extracting", "starting"⟩,
                   updated_at := "2025-01-01T00:00:05Z" }

/-- Concrete completed job used by the state-machine witness. -/
def sampleDoneJob : Job := { sampleJob with status := JobStatus.completed }

/-- C7 witness: a concrete start step instantiates the transition shape, and
a concrete completed job admits no step. -/
theorem jobStatus_state_machine_witness :
    ((sampleJob.status = JobStatus.pending
        ∧ sampleStartedJob.status = JobStatus.processing)
      ∨ (sampleJob.status = JobStatus.processing ∧
          (sampleStartedJob.status = JobStatus.processing
            ∨ sampleStartedJob.status = JobStatus.completed
            ∨ sampleStartedJob.status = JobStatus.failed)))
    ∧ ¬JobStep sampleDoneJob sampleJob :=
  ⟨jobStatus_state_machine.2.2.1 sampleJob sampleStartedJob
      (JobStep.start sampleJob ⟨0, 10, 0, "extracting", "starting"⟩
        "2025-01-01T00:00:05Z" rfl),
    jobStatus_state_machine.2.2.2 sampleDoneJob sampleJob rfl⟩

/-- Image target variants of the deploy request, from
src/frontend/lib/types.ts. Constructor argument s3Prfx embeds the field
spelled p-r-e-f-i-x in the source. -/
inductive ImageTarget
  | local_folder (path : String)
  | s3 (bucket : String) (s3Prfx : String) (region : Option String)
  | scp (host : String) (port : Option Nat) (username : String)
      (private_key_path : Option String) (remote_path : String)
deriving DecidableEq, Repr

/-- Markdown target variants of the deploy request, from
src/frontend/lib/types.ts. -/
inductive MarkdownTarget
  | local_folder (path : String)
  | flowise (base_url : String) (api_key : String) (store_id : String)
deriving DecidableEq, Repr

/-- DeployRequest from src/frontend/lib/types.ts: a mandatory image base URL
plus at most one image target and at most one markdown target. -/
structure DeployRequest where
  image_base_url : String
  image_target : Option ImageTarget
  markdown_target : Option MarkdownTarget
deriving DecidableEq, Repr

/-- DeployStepResult from src/frontend/lib/types.ts. -/
structure DeployStepResult where
  target_type : String
  detail : String
deriving DecidableEq, Repr

/-- DeployResponse from src/frontend/lib/types.ts. -/
structure DeployResponse where
  success : Bool
  image_result : Option DeployStepResult
  markdown_result : Option DeployStepResult
  errors : List String
deriving DecidableEq, Repr

/-- Serialized tag of an image target variant. -/
def ImageTarget.typeName : ImageTarget → String
  | ImageTarget.local_folder _ => "local_folder"
  | ImageTarget.s3 .. => "s3"
  | ImageTarget.scp .. => "scp"

/-- Serialized tag of a markdown target variant. -/
def MarkdownTarget.typeName : MarkdownTarget → String
  | MarkdownTarget.local_folder _ => "local_folder"
  | MarkdownTarget.flowise .. => "flowise"

/-- Outcome of executing one deploy target: a success detail message or a
failure error message. -/
inductive TargetOutcome
  | succeeded (detail : String)
  | failed (msg : String)
deriving DecidableEq, Repr

/-- Whether a target outcome is a success. -/
def TargetOutcome.isSuccess : TargetOutcome → Bool
  | TargetOutcome.succeeded _ => true
  | TargetOutcome.failed _ => false

/-- Modelled from the spec: the Rust deploy executor is not under the
frontend tree. The outcome of executing each configured target is supplied by
the oracles imgOutcome and mdOutcome (the storage side effects themselves are
outside the embedding); an unconfigured target is vacuously successful. The
executor runs each configured target independently, records a per-target step
result on success, appends the error message on failure, and reports overall
success only when every configured target succeeded. -/
def imageStep (req : DeployRequest) (imgOutcome : ImageTarget → TargetOutcome) :
    Option DeployStepResult × List String × Bool :=
  match req.image_target with
  | none => (none, [], true)
  | some t =>
    match imgOutcome t with
    | TargetOutcome.succeeded d => (some ⟨t.typeName, d⟩, [], true)
    | TargetOutcome.failed m => (none, [m], false)

/-- Modelled from the spec: the markdown half of the deploy executor,
symmetric to imageStep. -/
def markdownStep (req : DeployRequest)
    (mdOutcome : MarkdownTarget → TargetOutcome) :
    Option DeployStepResult × List String × Bool :=
  match req.markdown_target with
  | none => (none, [], true)
  | some t =>
    match mdOutcome t with
    | TargetOutcome.succeeded d => (some ⟨t.typeName, d⟩, [], true)
    | TargetOutcome.failed m => (none, [m], false)

/-- Modelled from the spec: the full deploy executor, combining the two
independent target executions into one DeployResponse. -/
def runDeploy (req : DeployRequest) (imgOutcome : ImageTarget → TargetOutcome)
    (mdOutcome : MarkdownTarget → TargetOutcome) : DeployResponse :=
  let i := imageStep req imgOutcome
  let m := markdownStep req mdOutcome
  ⟨i.2.2 && m.2.2, i.1, m.1, i.2.1 ++ m.2.1⟩

/-- C1: the deploy response reports success iff every configured target
succeeded; each target's reported result is independent of the other
target's outcome; each failing target's message is appended to the errors
list without preventing the sibling's outcome from being reported; and with
only an image target configured, markdown_result is absent and success
depends solely on the image outcome. -/
theorem deploy_partial_failure (req : DeployRequest)
    (imgOutcome : ImageTarget → TargetOutcome)
    (mdOutcome : MarkdownTarget → TargetOutcome) :
    ((runDeploy req imgOutcome mdOutcome).success = true ↔
      (∀ t, req.image_target = some t → (imgOutcome t).isSuccess = true)
      ∧ (∀ t, req.markdown_target = some t → (mdOutcome t).isSuccess = true))
    ∧ (∀ mdOutcome', (runDeploy req imgOutcome mdOutcome).image_result
        = (runDeploy req imgOutcome mdOutcome').image_result)
    ∧ (∀ imgOutcome', (runDeploy req imgOutcome mdOutcome).markdown_result
        = (runDeploy req imgOutcome' mdOutcome).markdown_result)
    ∧ (∀ t m, req.image_target = some t → imgOutcome t = TargetOutcome.failed m →
        m ∈ (runDeploy req imgOutcome mdOutcome).errors)
    ∧ (∀ t m, req.markdown_target = some t → mdOutcome t = TargetOutcome.failed m →
        m ∈ (runDeploy req imgOutcome mdOutcome).errors)
    ∧ (req.markdown_target = none →
        (runDeploy req imgOutcome mdOutcome).markdown_result = none
        ∧ ((runDeploy req imgOutcome mdOutcome).success = true ↔
            ∀ t, req.image_target = some t → (imgOutcome t).isSuccess = true)) := by
  refine ⟨?_, ?_, ?_, ?_, ?_, ?_⟩
  · rcases hit : req.image_target with _ | ti <;>
      rcases hmt : req.markdown_target with _ | tm
    · simp [runDeploy, imageStep, markdownStep, hit, hmt]
    · rcases ho : mdOutcome tm with d | m <;>
        simp [runDeploy, imageStep, markdownStep, hit, hmt, ho,
          TargetOutcome.isSuccess]
    · rcases ho : imgOutcome ti with d | m <;>
        simp [runDeploy, imageStep, markdownStep, hit, hmt, ho,
          TargetOutcome.isSuccess]
    · rcases ho : imgOutcome ti with d | m <;>
        rcases ho' : mdOutcome tm with d' | m' <;>
        simp [runDeploy, imageStep, markdownStep, hit, hmt, ho, ho',
          TargetOutcome.isSuccess]
  · intro mdOutcome'
    simp [runDeploy]
  · intro imgOutcome'
    simp [runDeploy]
  · intro t m hit ho
    rcases hmt : req.markdown_target with _ | tm <;>
      simp [runDeploy, imageStep, markdownStep, hit, hmt, ho]
  · intro t m hmt ho
    rcases hit : req.image_target with _ | ti
    · simp [runDeploy, imageStep, markdownStep, hit, hmt, ho]
    · rcases ho' : imgOutcome ti with d | m' <;>
        simp [runDeploy, imageStep, markdownStep, hit, hmt, ho, ho']
  · intro hmt
    constructor
    · simp [runDeploy, markdownStep, hmt]
    · rcases hit : req.image_target with _ | ti
      · simp [runDeploy, imageStep, markdownStep, hit, hmt]
      · rcases ho : imgOutcome ti with d | m <;>
          simp [runDeploy, imageStep, markdownStep, hit, hmt, ho,
            TargetOutcome.isSuccess]

/-- Deploy request with only an s3 image target, used by the deploy witness. -/
def sampleImageOnlyReq : DeployRequest :=
  ⟨"http://192.168.0.10:8444/rag-images",
    some (ImageTarget.s3 "my-rag-images" "images/manual" none), none⟩

/-- Deploy request with an image and a flowise markdown target, used by the
deploy witness. -/
def sampleBothReq : DeployRequest :=
  ⟨"http://192.168.0.10:8444/rag-images",
    some (ImageTarget.s3 "my-rag-images" "images/manual" none),
    some (MarkdownTarget.flowise "http://localhost:3001" "bad-key" "abc-123")⟩

/-- Outcome oracle where every image target succeeds. -/
def imgAllOk : ImageTarget → TargetOutcome :=
  fun _ => TargetOutcome.succeeded "uploaded"

/-- Outcome oracle where every markdown target fails with an auth error. -/
def mdAllFail : MarkdownTarget → TargetOutcome :=
  fun _ => TargetOutcome.failed "flowise: invalid api key"

/-- C1 witness: with only an image target, markdown_result is absent; with a
failing markdown target, its message lands in the errors list. -/
theorem deploy_partial_failure_witness :
    (runDeploy sampleImageOnlyReq imgAllOk mdAllFail).markdown_result = none
    ∧ "flowise: invalid api key"
        ∈ (runDeploy sampleBothReq imgAllOk mdAllFail).errors :=
  ⟨((deploy_partial_failure sampleImageOnlyReq imgAllOk mdAllFail).2.2.2.2.2 rfl).1,
    (deploy_partial_failure sampleBothReq imgAllOk mdAllFail).2.2.2.2.1
      (MarkdownTarget.flowise "http://localhost:3001" "bad-key" "abc-123")
      "flowise: invalid api key" rfl rfl⟩

/-- Boolean test that the first list is a leading segment of the second. -/
def lstartsWith : List Char → List Char → Bool
  | [], _ => true
  | _ :: _, [] => false
  | a :: as, b :: bs => if a = b then lstartsWith as bs else false

/-- Number of (possibly overlapping) occurrences of the pattern in the
character list: one per position where the pattern is a leading segment of
the remaining suffix. -/
def countOcc (pat : List Char) : List Char → Nat
  | [] => 0
  | c :: cs => (if lstartsWith pat (c :: cs) then 1 else 0) + countOcc pat cs

/-- Number of occurrences of a pattern string inside a string. -/
def countOccurrences (pat s : String) : Nat := countOcc pat.data s.data

/-- The page-divider token characters. -/
def tri : List Char := ['-', '-', '-']

/-- Modelled from the spec: the page-divider token the pipeline assembler
puts between consecutive page sections, a markdown horizontal rule with the
literal token on its own line. -/
def pageDivider : String := "\n\n---\n\n"

/-- Modelled from the spec: the Rust pipeline assembler is not under the
frontend tree; pages are joined with the literal divider token. -/
def assembleMarkdown : List String → String
  | [] => ""
  | [p] => p
  | p :: ps => p ++ pageDivider ++ assembleMarkdown ps

/-- The characters of the divider literal. -/
theorem pageDivider_data :
    pageDivider.data
      = '\n' :: '\n' :: '-' :: '-' :: '-' :: '\n' :: '\n' :: [] := rfl

/-- The characters of the divider token literal. -/
theorem tri_data : tri = "---".data := rfl

/-- Counting across the divider: the divider block contributes exactly one
occurrence of the token, whatever follows it. -/
theorem countOcc_tri_divider (t : List Char) :
    countOcc tri ('\n' :: '\n' :: '-' :: '-' :: '-' :: '\n' :: '\n' :: t)
      = 1 + countOcc tri t := by
  simp [countOcc, lstartsWith, tri]

/-- The token check at the first three characters ignores everything after
them. -/
theorem lstartsWith_tri_first3 (c b b2 : Char) (r r' : List Char) :
    lstartsWith tri (c :: b :: b2 :: r) = lstartsWith tri (c :: b :: b2 :: r') := by
  simp [lstartsWith, tri]

/-- Unfolding of the occurrence counter at a cons cell. -/
theorem countOcc_cons (pat : List Char) (c : Char) (cs : List Char) :
    countOcc pat (c :: cs)
      = (if lstartsWith pat (c :: cs) then 1 else 0) + countOcc pat cs := rfl

/-- Counting across a token-free block: a block with no occurrence of the
token, followed by a newline, contributes nothing, whatever follows. -/
theorem countOcc_tri_skip (q t : List Char) (hq : countOcc tri q = 0) :
    countOcc tri (q ++ '\n' :: t) = countOcc tri ('\n' :: t) := by
  induction q with
  | nil => rfl
  | cons c q' ih =>
    have hsplit : (if lstartsWith tri (c :: q') then 1 else 0) + countOcc tri q' = 0 := hq
    have hq' : countOcc tri q' = 0 := by omega
    have ha : (if lstartsWith tri (c :: q') then 1 else 0) = 0 := by omega
    have hpre : lstartsWith tri (c :: q') = false := by
      by_contra hb
      rw [Bool.not_eq_false] at hb
      rw [hb] at ha
      simp at ha
    have hgoal : lstartsWith tri (c :: (q' ++ '\n' :: t)) = false := by
      match q' with
      | [] =>
        simp only [List.nil_append, lstartsWith, tri]
        split
        · rw [if_neg (by decide : ¬(('-' : Char) = '\n'))]
        · rfl
      | [b] =>
        simp only [List.cons_append, List.nil_append, lstartsWith, tri]
        split
        · split
          · rw [if_neg (by decide : ¬(('-' : Char) = '\n'))]
          · rfl
        · rfl
      | b :: b2 :: q'' =>
        calc lstartsWith tri (c :: b :: b2 :: (q'' ++ '\n' :: t))
            = lstartsWith tri (c :: b :: b2 :: q'') :=
              lstartsWith_tri_first3 c b b2 _ _
          _ = false := hpre
    rw [List.cons_append, countOcc_cons, hgoal]
    simp only [Bool.false_eq_true, if_false, Nat.zero_add]
    exact ih hq'

/-- C4 counterexample: a page whose own text contains the token breaks the
exactly-N-minus-1 count: two pages, one containing the token, produce 2
occurrences, not 1. -/
theorem divider_count_counterexample :
    countOccurrences "---" (assembleMarkdown ["a---b", "c"])
      ≠ (["a---b", "c"] : List String).length - 1 := by decide

/-- C4 (amended): pages are joined with exactly the divider token, and for a
document none of whose page sections contains the token, the assembled
markdown contains exactly N-1 occurrences of it. -/
theorem pipeline_divider_count (pages : List String)
    (h : ∀ p ∈ pages, countOccurrences "---" p = 0) :
    countOccurrences "---" (assembleMarkdown pages) = pages.length - 1
    ∧ (∀ q qs, qs ≠ ([] : List String) →
        assembleMarkdown (q :: qs) = q ++ pageDivider ++ assembleMarkdown qs) := by
  constructor
  · induction pages with
    | nil => rfl
    | cons p ps ih =>
      match ps with
      | [] =>
        simpa [assembleMarkdown] using h p (by simp)
      | q :: ps' =>
        have hp : countOcc tri p.data = 0 := by
          simpa [countOccurrences, tri_data] using h p (by simp)
        have hrest := ih (fun x hx => h x (List.mem_cons_of_mem p hx))
        have hdata : (assembleMarkdown (p :: q :: ps')).data
            = p.data ++ '\n' :: '\n' :: '-' :: '-' :: '-' :: '\n' :: '\n'
              :: (assembleMarkdown (q :: ps')).data := by
          show (p ++ pageDivider ++ assembleMarkdown (q :: ps')).data = _
          simp [String.data_append, pageDivider_data]
        unfold countOccurrences
        rw [hdata, ← tri_data]
        rw [countOcc_tri_skip p.data _ hp, countOcc_tri_divider]
        have hq2 : countOcc tri (assembleMarkdown (q :: ps')).data
            = (q :: ps').length - 1 := by
          simpa [countOccurrences, tri_data] using hrest
        rw [hq2]
        simp only [List.length_cons]
        omega
  · intro q qs hqs
    match qs with
    | [] => exact absurd rfl hqs
    | r :: qs' => rfl

/-- C4 witness: three token-free pages assemble into markdown with exactly
two occurrences of the divider token. -/
theorem pipeline_divider_count_witness :
    countOccurrences "---" (assembleMarkdown ["Page one", "Page two", "Page three"])
      = (["Page one", "Page two", "Page three"] : List String).length - 1 :=
  (pipeline_divider_count ["Page one", "Page two", "Page three"]
    (by decide)).1

/-- Characters of the opening of an image tag, the literal [IMAGE: of the
MarkdownViewer.tsx replacement regex. -/
def tagLit : List Char := ['[', 'I', 'M', 'A', 'G', 'E', ':']

/-- The regex capture group: [^\x5d]+ then the closing bracket. captureBody
consumes zero or more non-bracket characters followed by the closing bracket,
returning the captured characters and the rest. -/
def captureBody : List Char → Option (List Char × List Char)
  | [] => none
  | c :: cs =>
    if c = ']' then some ([], cs)
    else match captureBody cs with
      | some (f, r) => some (c :: f, r)
      | none => none

/-- The one-or-more capture of the regex: captureBody restricted to a
non-empty capture. -/
def takeCapture (l : List Char) : Option (List Char × List Char) :=
  match captureBody l with
  | some (f, r) => if f = [] then none else some (f, r)
  | none => none

/-- Whether the regex of MarkdownViewer.tsx matches at the head of the list:
the literal [IMAGE: followed by a non-empty run of non-bracket characters and
the closing bracket; returns the capture and the remainder after the match. -/
def tagMatch (l : List Char) : Option (List Char × List Char) :=
  if lstartsWith tagLit l then takeCapture (l.drop 7) else none

/-- A successful capture accounts for the whole consumed list. -/
theorem captureBody_some_length (l f r : List Char)
    (h : captureBody l = some (f, r)) : l.length = f.length + 1 + r.length := by
  induction l generalizing f r with
  | nil => simp [captureBody] at h
  | cons c cs ih =>
    simp only [captureBody] at h
    split at h
    · obtain ⟨rfl, rfl⟩ := by simpa using h
      simp
      omega
    · split at h
      · rename_i f' r' hcb
        obtain ⟨rfl, rfl⟩ := by simpa using h
        have := ih f' r' hcb
        simp [this]
        omega
      · exact absurd h (by simp)

/-- A leading segment is no longer than the list. -/
theorem lstartsWith_length (p l : List Char) (h : lstartsWith p l = true) :
    p.length ≤ l.length := by
  induction p generalizing l with
  | nil => simp
  | cons a as ih =>
    match l with
    | [] => simp [lstartsWith] at h
    | b :: bs =>
      simp only [lstartsWith] at h
      split at h
      · have := ih bs h
        simp
        omega
      · exact absurd h (by simp)

/-- The remainder after a successful tag match is strictly shorter than the
input, which makes the global replacement terminate. -/
theorem tagMatch_some_length (l : List Char) (fr : List Char × List Char)
    (h : tagMatch l = some fr) : fr.2.length < l.length := by
  unfold tagMatch at h
  split at h
  · rename_i hsw
    unfold takeCapture at h
    split at h
    · rename_i f r hcb
      split at h
      · exact absurd h (by simp)
      · obtain rfl := by simpa using h.symm
        have hlen := captureBody_some_length _ _ _ hcb
        have hd : (l.drop 7).length = l.length - 7 := by simp
        have h7 : 7 ≤ l.length := lstartsWith_length tagLit l hsw
        simp at hlen hd
        simp
        omega
    · exact absurd h (by simp)
  · exact absurd h (by simp)

/-- MarkdownViewer.tsx: const filename = path.split slash then .pop()
(never undefined on a split result, the nullish fallback is the path
itself). -/
def lastSegment (path : String) : String :=
  (path.split (fun c => c = '/')).getLastD path

/-- The URL the replacement points at: imagesBaseUrl slash the captured
path. This is the src attribute of the rendered img element. -/
def imgSrc (base path : String) : String := base ++ "/" ++ path

/-- MarkdownViewer.tsx replacement text for one [IMAGE:path] tag: a standard
markdown image whose alt text is the path's last segment and whose URL is
imgSrc. -/
def mdImage (base path : String) : String :=
  "![" ++ lastSegment path ++ "](" ++ imgSrc base path ++ ")"

/-- MarkdownViewer.tsx content.replace with the global image-tag regex: scan
left to right; at a match emit the replacement and continue after the match,
otherwise keep the character and continue one position later. -/
def replaceTags (base : String) (l : List Char) : List Char :=
  match l with
  | [] => []
  | c :: cs =>
    match h : tagMatch (c :: cs) with
    | some (fn, r) => (mdImage base (String.mk fn)).data ++ replaceTags base r
    | none => c :: replaceTags base cs
termination_by l.length
decreasing_by
  · exact tagMatch_some_length (c :: cs) (fn, r) h
  · simp

/-- Replacement leaves the empty text empty. -/
theorem replaceTags_nil (base : String) : replaceTags base [] = [] := by
  rw [replaceTags]

/-- Replacement at a successful match emits the replacement text and
continues after the match. -/
theorem replaceTags_cons_some (base : String) (c : Char) (cs fn r : List Char)
    (h : tagMatch (c :: cs) = some (fn, r)) :
    replaceTags base (c :: cs)
      = (mdImage base (String.mk fn)).data ++ replaceTags base r := by
  rw [replaceTags]
  split
  · rename_i fn' r' h'
    rw [h] at h'
    obtain ⟨rfl, rfl⟩ := by simpa using h'
    rfl
  · rename_i h'
    rw [h] at h'
    exact absurd h' (by simp)

/-- Replacement at a non-match keeps the character. -/
theorem replaceTags_cons_none (base : String) (c : Char) (cs : List Char)
    (h : tagMatch (c :: cs) = none) :
    replaceTags base (c :: cs) = c :: replaceTags base cs := by
  rw [replaceTags]
  split
  · rename_i fn' r' h'
    rw [h] at h'
    exact absurd h' (by simp)
  · rfl

/-- The capture of a bracket-free run followed by the closing bracket. -/
theorem captureBody_clean (f r : List Char) (hf : ']' ∉ f) :
    captureBody (f ++ ']' :: r) = some (f, r) := by
  induction f with
  | nil => simp [captureBody]
  | cons c f' ih =>
    have hc : ¬(c = ']') := by
      intro hc
      exact hf (hc ▸ List.mem_cons_self c f')
    have hf' : ']' ∉ f' := fun hm => hf (List.mem_cons_of_mem c hm)
    simp only [List.cons_append, captureBody, if_neg hc, List.append_eq, ih hf']

/-- The one-or-more capture of a non-empty bracket-free run. -/
theorem takeCapture_clean (f r : List Char) (hne : f ≠ []) (hf : ']' ∉ f) :
    takeCapture (f ++ ']' :: r) = some (f, r) := by
  unfold takeCapture
  rw [captureBody_clean f r hf]
  simp [hne]

/-- A list is a leading segment of itself followed by anything. -/
theorem lstartsWith_self_append (p t : List Char) :
    lstartsWith p (p ++ t) = true := by
  induction p with
  | nil => rfl
  | cons a as ih => simp [lstartsWith, ih]

/-- The regex matches a well-formed tag at the head, capturing exactly the
tag body. -/
theorem tagMatch_real (f r : List Char) (hne : f ≠ []) (hf : ']' ∉ f) :
    tagMatch (tagLit ++ (f ++ ']' :: r)) = some (f, r) := by
  unfold tagMatch
  rw [if_pos (lstartsWith_self_append tagLit _)]
  have hd : (tagLit ++ (f ++ ']' :: r)).drop 7 = f ++ ']' :: r := by
    have h7 : (7 : Nat) = tagLit.length := rfl
    rw [h7, List.drop_left]
  rw [hd, takeCapture_clean f r hne hf]

/-- The characters of the tag opening after the bracket. -/
def tagTail : List Char := ['I', 'M', 'A', 'G', 'E', ':']

/-- The tag opening is the bracket followed by its tail. -/
theorem tagLit_eq : tagLit = '[' :: tagTail := rfl

/-- A bracket-free pattern behaves the same on a list extended past an
opening bracket: the bracket can never take part in such a match. -/
theorem lstartsWith_append_bracket (pat : List Char) (hb : '[' ∉ pat) :
    ∀ p' t', lstartsWith pat (p' ++ '[' :: t') = lstartsWith pat p' := by
  induction pat with
  | nil => intro p' t'; rfl
  | cons a as ih =>
    intro p' t'
    have ha : ¬(a = '[') := by
      intro ha
      exact hb (ha ▸ List.mem_cons_self a as)
    have has : '[' ∉ as := fun hm => hb (List.mem_cons_of_mem a hm)
    match p' with
    | [] =>
      simp only [List.nil_append, lstartsWith]
      rw [if_neg (fun hc => ha hc)]
    | c :: p'' =>
      simp only [List.cons_append, lstartsWith]
      split
      · exact ih has p'' t'
      · rfl

/-- Whether the tag opening [IMAGE: occurs anywhere in the list. -/
def hasTagStart : List Char → Bool
  | [] => false
  | c :: cs => lstartsWith tagLit (c :: cs) || hasTagStart cs

/-- Whether the full tag regex matches anywhere in the list. -/
def hasTag : List Char → Bool
  | [] => false
  | c :: cs => (tagMatch (c :: cs)).isSome || hasTag cs

/-- Scanning a block free of the tag opening, followed by an opening
bracket, changes nothing in the block: no match can start inside it, not
even one spanning into what follows. -/
theorem replace_lit (base : String) (t' : List Char) :
    ∀ p : List Char, hasTagStart p = false →
    replaceTags base (p ++ '[' :: t') = p ++ replaceTags base ('[' :: t') := by
  intro p
  induction p with
  | nil => intro _; rfl
  | cons c p' ih =>
    intro hp
    have hsplit : (lstartsWith tagLit (c :: p') || hasTagStart p') = false := hp
    have h1 : lstartsWith tagLit (c :: p') = false := by
      rcases Bool.or_eq_false_iff.mp hsplit with ⟨h, -⟩
      exact h
    have h2 : hasTagStart p' = false := by
      rcases Bool.or_eq_false_iff.mp hsplit with ⟨-, h⟩
      exact h
    have hfalse : lstartsWith tagLit (c :: (p' ++ '[' :: t')) = false := by
      rw [tagLit_eq]
      simp only [lstartsWith]
      split
      · rename_i hceq
        rw [lstartsWith_append_bracket tagTail (by decide) p' t']
        rw [tagLit_eq] at h1
        simp only [lstartsWith] at h1
        rw [if_pos hceq] at h1
        exact h1
      · rfl
    have hm : tagMatch (c :: (p' ++ '[' :: t')) = none := by
      unfold tagMatch
      rw [if_neg (by simp [hfalse])]
    rw [List.cons_append, replaceTags_cons_none base c _ hm, ih h2]
    rfl

/-- Replacing at the head of a well-formed tag emits the image replacement
and continues after the tag. -/
theorem replace_head_tag (base : String) (f r : List Char)
    (hne : f ≠ []) (hf : ']' ∉ f) :
    replaceTags base (tagLit ++ (f ++ ']' :: r))
      = (mdImage base (String.mk f)).data ++ replaceTags base r := by
  have hm : tagMatch ('[' :: (tagTail ++ (f ++ ']' :: r))) = some (f, r) := by
    have hreal := tagMatch_real f r hne hf
    rwa [tagLit_eq, List.cons_append] at hreal
  calc replaceTags base (tagLit ++ (f ++ ']' :: r))
      = replaceTags base ('[' :: (tagTail ++ (f ++ ']' :: r))) := by
        rw [tagLit_eq, List.cons_append]
    _ = (mdImage base (String.mk f)).data ++ replaceTags base r :=
        replaceTags_cons_some base '[' _ f r hm

/-- Text in which the tag regex never matches is left unchanged. -/
theorem replaceTags_no_tag (base : String) (l : List Char)
    (h : hasTag l = false) : replaceTags base l = l := by
  induction l with
  | nil => exact replaceTags_nil base
  | cons c cs ih =>
    have hsplit : ((tagMatch (c :: cs)).isSome || hasTag cs) = false := h
    rcases Bool.or_eq_false_iff.mp hsplit with ⟨hm1, hm2⟩
    have hm : tagMatch (c :: cs) = none := by
      rcases hx : tagMatch (c :: cs) with _ | p
      · rfl
      · rw [hx] at hm1
        simp at hm1
    rw [replaceTags_cons_none base c cs hm, ih hm2]

/-- MarkdownViewer.tsx: the preprocessing step, content.replace over the
global image-tag regex with the imagesBaseUrl-dependent replacement. -/
def MarkdownViewer.preprocess (content : String) (imagesBaseUrl : String) : String :=
  String.mk (replaceTags imagesBaseUrl content.data)

/-- An HTML img element as rendered by the component override of
MarkdownViewer.tsx. -/
structure ImgElement where
  src : String
  alt : String

/-- The components.img override of MarkdownViewer.tsx renders a markdown
image node with the given alt text and URL as an img element whose src is
that URL. -/
def renderImgNode (alt url : String) : ImgElement := ⟨url, alt⟩

/-- The characters of the tag-opening string literal. -/
theorem imageTagLit_data : ("[IMAGE:" : String).data = tagLit := rfl

/-- The characters of the closing bracket literal. -/
theorem closeBracket_data : ("]" : String).data = [']'] := rfl

/-- C2: the MarkdownViewer rewrite replaces a tag [IMAGE:fn] — fn a
non-empty run of non-bracket characters — by the image replacement whose
rendered img src is the base URL, a slash, and fn; text without any tag
match is left unchanged. The leading text must not contain the tag opening,
which is exactly the condition for the regex not to match earlier. -/
theorem markdownViewer_rewrites_image_tags
    (base pre fn suf : String)
    (h1 : fn.data ≠ []) (h2 : ']' ∉ fn.data)
    (h3 : hasTagStart pre.data = false) :
    (MarkdownViewer.preprocess (pre ++ "[IMAGE:" ++ fn ++ "]" ++ suf) base
      = pre ++ mdImage base fn ++ MarkdownViewer.preprocess suf base)
    ∧ imgSrc base fn = base ++ "/" ++ fn
    ∧ (renderImgNode (lastSegment fn) (imgSrc base fn)).src = base ++ "/" ++ fn
    ∧ (∀ s : String, hasTag s.data = false →
        MarkdownViewer.preprocess s base = s) := by
  refine ⟨?_, rfl, rfl, ?_⟩
  · have hX : (pre ++ "[IMAGE:" ++ fn ++ "]" ++ suf).data
        = pre.data ++ ('[' :: (tagTail ++ (fn.data ++ ']' :: suf.data))) := by
      simp only [String.data_append, imageTagLit_data, closeBracket_data, tagLit_eq]
      simp [List.append_assoc, tagTail]
    have key : replaceTags base ((pre ++ "[IMAGE:" ++ fn ++ "]" ++ suf).data)
        = pre.data ++ ((mdImage base fn).data ++ replaceTags base suf.data) := by
      rw [hX, replace_lit base _ pre.data h3]
      have hh : replaceTags base ('[' :: (tagTail ++ (fn.data ++ ']' :: suf.data)))
          = (mdImage base fn).data ++ replaceTags base suf.data := by
        have hht := replace_head_tag base fn.data suf.data h1 h2
        rwa [tagLit_eq, List.cons_append] at hht
      rw [hh]
    show String.mk (replaceTags base ((pre ++ "[IMAGE:" ++ fn ++ "]" ++ suf).data))
        = pre ++ mdImage base fn ++ String.mk (replaceTags base suf.data)
    rw [key]
    show String.mk _ = String.mk ((pre.data ++ (mdImage base fn).data)
      ++ replaceTags base suf.data)
    rw [List.append_assoc]
  · intro s hs
    show String.mk (replaceTags base s.data) = s
    rw [replaceTags_no_tag base s.data hs]

/-- C2 witness: a concrete text with one tag rewrites to the text with the
image replacement in place, and concrete tag-free text is unchanged. -/
theorem markdownViewer_witness :
    (MarkdownViewer.preprocess
        ("Hello " ++ "[IMAGE:" ++ "doc/shot1.png" ++ "]" ++ " tail") "http://h"
      = "Hello " ++ mdImage "http://h" "doc/shot1.png"
        ++ MarkdownViewer.preprocess " tail" "http://h")
    ∧ MarkdownViewer.preprocess "no tags here" "http://h" = "no tags here" :=
  ⟨(markdownViewer_rewrites_image_tags "http://h" "Hello " "doc/shot1.png" " tail"
      (by decide) (by decide) (by decide)).1,
    (markdownViewer_rewrites_image_tags "http://h" "Hello " "doc/shot1.png" " tail"
      (by decide) (by decide) (by decide)).2.2.2 "no tags here" (by decide)⟩
